import Mathlib

/-!
Verification of the rule-based PDF field extractor (src/main.py).

The Python source is shallowly embedded: text is a Lean `String`, viewed as its
`List Char` of code points; each regular expression of the source is embedded as
an executable matcher that mirrors the leftmost-search and greedy-backtracking
behaviour of the CPython `re` engine on that concrete pattern; the per-field
scanning loops of `extract_fields_rule_based` are embedded as structurally
identical recursive functions.  Character classes are modelled at ASCII scope
(the classes `\d`, `\w`, `\s` and `str.lower`/`str.strip` of the source are
applied by the program to text where the relevant characters are ASCII).
-/

namespace PdfExtract

/-- ASCII decimal digit, the class `\d`. -/
def isDigitChar (c : Char) : Bool := '0' ≤ c && c ≤ '9'

/-- ASCII uppercase letter, the class `[A-Z]`. -/
def isUpperChar (c : Char) : Bool := 'A' ≤ c && c ≤ 'Z'

/-- ASCII letter, the class `[a-zA-Z]`. -/
def isAlphaChar (c : Char) : Bool :=
  ('a' ≤ c && c ≤ 'z') || ('A' ≤ c && c ≤ 'Z')

/-- Word character for `\b` word boundaries: `[a-zA-Z0-9_]`. -/
def isWordChar (c : Char) : Bool := isAlphaChar c || isDigitChar c || c = '_'

/-- Whitespace, the class `\s` and the characters stripped by `str.strip`. -/
def pyIsSpace (c : Char) : Bool :=
  c = ' ' || c = '\t' || c = '\n' || c = '\x0d' || c = '\x0b' || c = '\x0c'

/-- Line-break characters recognised by `str.splitlines` (the source replaces
every `\x0d` by `\n` before splitting, so `\x0d` and `\x0d\n` need no special
treatment here). -/
def isLineBreak (c : Char) : Bool :=
  c = '\n' || c = '\x0b' || c = '\x0c' || c = '\x1c' || c = '\x1d' ||
  c = '\x1e' || c = '\x85' || c = '\u2028' || c = '\u2029'

/-- `text.replace("\r", "\n")` — line 24 of the source. -/
def pyNorm (s : List Char) : List Char :=
  s.map (fun c => if c = '\x0d' then '\n' else c)

/-- `str.splitlines` on the normalised text (no `\x0d` remains). -/
def splitLines : List Char → List (List Char)
  | [] => []
  | c :: t =>
    if isLineBreak c then [] :: splitLines t
    else
      match splitLines t with
      | [] => [[c]]
      | h :: r => (c :: h) :: r

/-- `str.strip()`. -/
def pyStrip (s : List Char) : List Char :=
  ((s.dropWhile pyIsSpace).reverse.dropWhile pyIsSpace).reverse

/-- `str.lower()` at ASCII scope. -/
def pyLower (s : List Char) : List Char := s.map Char.toLower

/-- `leadsWith hay needle` holds when `needle` is a leading slice of `hay`. -/
def leadsWith : List Char → List Char → Bool
  | _, [] => true
  | [], _ :: _ => false
  | c :: cs, d :: ds => c = d && leadsWith cs ds

/-- `hasSub needle hay` is the Python substring test `needle in hay`. -/
def hasSub (needle : List Char) : List Char → Bool
  | [] => needle.isEmpty
  | c :: t => leadsWith (c :: t) needle || hasSub needle t

/-- Python `str.split(sep)` with a one-character separator. -/
def splitAllOn (sep : Char) : List Char → List (List Char)
  | [] => [[]]
  | c :: t =>
    if c = sep then [] :: splitAllOn sep t
    else
      match splitAllOn sep t with
      | [] => [[c]]
      | h :: r => (c :: h) :: r

/-- Python `str.split(sep, 1)`: `none` when the separator does not occur,
otherwise the parts before and after its first occurrence. -/
def splitOnceOn (sep : Char) : List Char → Option (List Char × List Char)
  | [] => none
  | c :: t =>
    if c = sep then some ([], t)
    else (splitOnceOn sep t).map (fun p => (c :: p.1, p.2))

/-- Match a fixed sequence of character classes at the head of the input,
returning the consumed characters and the remainder. -/
def matchClasses : List (Char → Bool) → List Char → Option (List Char × List Char)
  | [], s => some ([], s)
  | _ :: _, [] => none
  | p :: ps, c :: t =>
    if p c then (matchClasses ps t).map (fun r => (c :: r.1, r.2)) else none

/-- `n` copies of the digit class, the pattern piece `\d{n}`. -/
def digitCs (n : Nat) : List (Char → Bool) := List.replicate n isDigitChar

/-- A `\b` position just before the scan window: the previous character (if
any) must not be a word character, given that the match starts with one. -/
def nonWordBefore : Option Char → Bool
  | none => true
  | some c => !isWordChar c

/-- A `\b` position just after a match ending in a word character: the next
character (if any) must not be a word character. -/
def nonWordAfter : List Char → Bool
  | [] => true
  | c :: _ => !isWordChar c

/-- The piece `[6-9]\d{9}` of `PHONE_REGEX` (line 14). -/
def phoneCore : List Char → Option (List Char)
  | [] => none
  | c :: t =>
    if '6' ≤ c && c ≤ '9' then
      match matchClasses (digitCs 9) t with
      | some r => some (c :: r.1)
      | none => none
    else none

/-- The optional group `(\+91[-\s]?)?` of `PHONE_REGEX` followed by the core,
with the separator branch tried greedily first. -/
def phoneSep : List Char → Option (List Char)
  | [] => none
  | c :: r2 =>
    if c = '-' || pyIsSpace c then
      match phoneCore r2 with
      | some m => some ('+' :: '9' :: '1' :: c :: m)
      | none => none
    else none

def phonePre : List Char → Option (List Char)
  | c1 :: c2 :: c3 :: r =>
    if c1 = '+' ∧ c2 = '9' ∧ c3 = '1' then
      match phoneSep r with
      | some m => some m
      | none =>
        match phoneCore r with
        | some m => some ('+' :: '9' :: '1' :: m)
        | none => none
    else none
  | _ => none

/-- One attempt of `PHONE_REGEX` at the current position (the pattern has no
word-boundary anchors, so the previous character is irrelevant). -/
def phoneMatchAt (_prev : Option Char) (s : List Char) : Option (List Char) :=
  match phonePre s with
  | some m => some m
  | none => phoneCore s

/-- One attempt of `PAN_REGEX` (line 11): `\b[A-Z]{5}[0-9]{4}[A-Z]\b`. -/
def panMatchAt (prev : Option Char) (s : List Char) : Option (List Char) :=
  if nonWordBefore prev then
    match matchClasses
        (List.replicate 5 isUpperChar ++ digitCs 4 ++ [isUpperChar]) s with
    | some r => if nonWordAfter r.2 then some r.1 else none
    | none => none
  else none

/-- One attempt of `IFSC_REGEX` (line 15): `\b[A-Z]{4}0[A-Z0-9]{6}\b`. -/
def ifscMatchAt (prev : Option Char) (s : List Char) : Option (List Char) :=
  if nonWordBefore prev then
    match matchClasses
        (List.replicate 4 isUpperChar ++ [fun c => c == '0'] ++
         List.replicate 6 (fun c => isUpperChar c || isDigitChar c)) s with
    | some r => if nonWordAfter r.2 then some r.1 else none
    | none => none
  else none

/-- Final piece `\d{4}\b` of `AADHAAR_REGEX` (line 12), prefixed with the
already-matched characters.  `sp` is the whitespace class used for the
grouping separators (`\s` in the source pattern). -/
def aadEnd (d1 sp1 d2 sp2 r4 : List Char) : Option (List Char) :=
  match matchClasses (digitCs 4) r4 with
  | some r => if nonWordAfter r.2 then some (d1 ++ sp1 ++ d2 ++ sp2 ++ r.1) else none
  | none => none

/-- Second optional separator `\s?` of `AADHAAR_REGEX`, greedy with
backtracking into the no-separator branch. -/
def aadSp2 (sp : Char → Bool) (d1 sp1 d2 r3 : List Char) : Option (List Char) :=
  match r3 with
  | c :: r4 =>
    if sp c then
      match aadEnd d1 sp1 d2 [c] r4 with
      | some m => some m
      | none => aadEnd d1 sp1 d2 [] r3
    else aadEnd d1 sp1 d2 [] r3
  | [] => aadEnd d1 sp1 d2 [] r3

/-- Middle group `\d{4}` of `AADHAAR_REGEX`. -/
def aadD2 (sp : Char → Bool) (d1 sp1 r2 : List Char) : Option (List Char) :=
  match matchClasses (digitCs 4) r2 with
  | some r => aadSp2 sp d1 sp1 r.1 r.2
  | none => none

/-- First optional separator `\s?` of `AADHAAR_REGEX`, greedy with
backtracking. -/
def aadSp1 (sp : Char → Bool) (d1 r1 : List Char) : Option (List Char) :=
  match r1 with
  | c :: r2 =>
    if sp c then
      match aadD2 sp d1 [c] r2 with
      | some m => some m
      | none => aadD2 sp d1 [] r1
    else aadD2 sp d1 [] r1
  | [] => aadD2 sp d1 [] r1

/-- Body of `AADHAAR_REGEX` after the leading `\b`, parameterised by the
separator class. -/
def aadFrom (sp : Char → Bool) (s : List Char) : Option (List Char) :=
  match matchClasses (digitCs 4) s with
  | some r => aadSp1 sp r.1 r.2
  | none => none

/-- One attempt of `AADHAAR_REGEX` (line 12): `\b\d{4}\s?\d{4}\s?\d{4}\b`. -/
def aadMatchAt (prev : Option Char) (s : List Char) : Option (List Char) :=
  if nonWordBefore prev then aadFrom pyIsSpace s else none

/-- Character class `[a-zA-Z0-9._%+-]` of the local part of `EMAIL_REGEX`. -/
def isLocalChar (c : Char) : Bool :=
  isAlphaChar c || isDigitChar c || c = '.' || c = '_' || c = '%' || c = '+' || c = '-'

/-- Character class `[a-zA-Z0-9.-]` of the domain part of `EMAIL_REGEX`. -/
def isDomChar (c : Char) : Bool :=
  isAlphaChar c || isDigitChar c || c = '.' || c = '-'

/-- Try the split of the greedy domain run at position `k`: the dot of
`\.[a-zA-Z]{2,}` must sit at index `k` with at least two letters after it. -/
def domTry (dom : List Char) (k : Nat) : Option (List Char) :=
  match dom.drop k with
  | '.' :: rest =>
    let tld := rest.takeWhile isAlphaChar
    if 2 ≤ tld.length && 1 ≤ k then some (dom.take k ++ '.' :: tld) else none
  | _ => none

/-- Backtracking of the greedy `[a-zA-Z0-9.-]+` of `EMAIL_REGEX`: split
positions are tried from the longest remaining domain run downwards. -/
def domLoop (dom : List Char) : Nat → Option (List Char)
  | 0 => none
  | k + 1 =>
    match domTry dom (k + 1) with
    | some m => some m
    | none => domLoop dom k

def domSplit (dom : List Char) : Option (List Char) :=
  match dom.length with
  | 0 => none
  | n + 1 => domLoop dom n

/-- One attempt of `EMAIL_REGEX` (line 13):
`[a-zA-Z0-9._%+-]+@[a-zA-Z0-9.-]+\.[a-zA-Z]{2,}` (no boundary anchors; the
local-part class excludes `@`, so its greedy run needs no backtracking). -/
def emailMatchAt (_prev : Option Char) (s : List Char) : Option (List Char) :=
  let loc := s.takeWhile isLocalChar
  if loc.isEmpty then none
  else
    match s.drop loc.length with
    | '@' :: rest =>
      let dom := rest.takeWhile isDomChar
      (domSplit dom).map (fun d => loc ++ '@' :: d)
    | _ => none

/-- `re.search`: try the pattern at every position from left to right,
tracking the previous character for word-boundary tests. -/
def searchFrom (mA : Option Char → List Char → Option (List Char)) :
    Option Char → List Char → Option (List Char)
  | prev, s =>
    match mA prev s with
    | some m => some m
    | none =>
      match s with
      | [] => none
      | c :: t => searchFrom mA (some c) t

def reSearch (mA : Option Char → List Char → Option (List Char))
    (s : List Char) : Option (List Char) :=
  searchFrom mA none s

/-- Greedy backtracking of `\d{9,18}\b` in `ACCOUNT_REGEX` (line 16): try a
match of `n` characters first, then shorter ones, never fewer than 9.  A
successful attempt returns the match length. -/
def accTryLen (s : List Char) : Nat → Option Nat
  | 0 => none
  | k + 1 =>
    if 9 ≤ k + 1 && (s.take (k + 1)).length == k + 1 &&
        (s.take (k + 1)).all isDigitChar && nonWordAfter (s.drop (k + 1)) then
      some (k + 1)
    else accTryLen s k

/-- One attempt of `ACCOUNT_REGEX` (line 16): `\b\d{9,18}\b`, returning the
match length. -/
def accMatchAt (prev : Option Char) (s : List Char) : Option Nat :=
  if nonWordBefore prev then accTryLen s 18 else none

theorem accTryLen_some {s : List Char} :
    ∀ {n k : Nat}, accTryLen s n = some k →
      9 ≤ k ∧ k ≤ n ∧ k ≤ s.length ∧ (s.take k).all isDigitChar = true ∧
        nonWordAfter (s.drop k) = true := by
  intro n
  induction n with
  | zero => intro k h; simp [accTryLen] at h
  | succ m ih =>
    intro k h
    rw [accTryLen] at h
    by_cases hc : (9 ≤ m + 1 && (s.take (m + 1)).length == m + 1 &&
        (s.take (m + 1)).all isDigitChar && nonWordAfter (s.drop (m + 1))) = true
    · rw [if_pos hc] at h
      cases h
      simp only [Bool.and_eq_true, decide_eq_true_eq, beq_iff_eq] at hc
      refine ⟨hc.1.1.1, Nat.le_refl _, ?_, hc.1.2, hc.2⟩
      have := hc.1.1.2
      rw [List.length_take] at this
      omega
    · rw [if_neg hc] at h
      have := ih h
      exact ⟨this.1, Nat.le_succ_of_le this.2.1, this.2.2⟩

theorem accMatchAt_some {prev : Option Char} {s : List Char} {k : Nat}
    (h : accMatchAt prev s = some k) :
    9 ≤ k ∧ k ≤ 18 ∧ k ≤ s.length ∧ (s.take k).all isDigitChar = true ∧
      nonWordAfter (s.drop k) = true ∧ nonWordBefore prev = true := by
  rw [accMatchAt] at h
  by_cases hb : nonWordBefore prev = true
  · rw [if_pos hb] at h
    have := accTryLen_some h
    exact ⟨this.1, this.2.1, this.2.2.1, this.2.2.2.1, this.2.2.2.2, hb⟩
  · rw [if_neg hb] at h; cases h

/-- `ACCOUNT_REGEX.finditer` (line 60): collect the non-overlapping matches
from left to right, resuming after each match.  The scan consumes at least
one character per step, so a fuel of `s.length + 1` always suffices; the
fuel argument only makes the recursion structural. -/
def accFindFrom : Nat → Option Char → List Char → List (List Char)
  | 0, _, _ => []
  | fuel + 1, prev, s =>
    match accMatchAt prev s with
    | some k =>
      s.take k :: accFindFrom fuel ((s.take k).getLast?) (s.drop k)
    | none =>
      match s with
      | [] => []
      | c :: t => accFindFrom fuel (some c) t

def accFindAll (s : List Char) : List (List Char) :=
  accFindFrom (s.length + 1) none s

/-- `re.sub(r"\D", "", s)`. -/
def digitsOnly (s : List Char) : List Char := s.filter isDigitChar

/-- Python slice `s[-10:]`. -/
def last10 (s : List Char) : List Char := s.drop (s.length - 10)

def chStr (s : List Char) : String := ⟨s⟩

/-- The normalised whole text (line 24). -/
def pyNormOf (text : String) : List Char := pyNorm text.data

/-- The trimmed non-empty lines (line 25). -/
def linesOf (text : String) : List (List Char) :=
  ((splitLines (pyNormOf text)).map pyStrip).filter (fun l => !l.isEmpty)

/-- Lines 28–31: first `EMAIL_REGEX` match. -/
def emailField (norm : List Char) : Option String :=
  (reSearch emailMatchAt norm).map chStr

/-- Lines 34–37: first `PHONE_REGEX` match, digits only, trailing 10 kept. -/
def phoneField (norm : List Char) : Option String :=
  (reSearch phoneMatchAt norm).map (fun m => chStr (last10 (digitsOnly m)))

/-- Lines 40–43: first `PAN_REGEX` match. -/
def panField (norm : List Char) : Option String :=
  (reSearch panMatchAt norm).map chStr

/-- Lines 46–49: first `AADHAAR_REGEX` match, kept verbatim. -/
def aadhaarField (norm : List Char) : Option String :=
  (reSearch aadMatchAt norm).map chStr

/-- Lines 52–55: first `IFSC_REGEX` match. -/
def ifscField (norm : List Char) : Option String :=
  (reSearch ifscMatchAt norm).map chStr

/-- Line 59: `re.sub(r"\D", "", aadhaar) if aadhaar else ""`. -/
def aadhaarDigitsOf (norm : List Char) : List Char :=
  match reSearch aadMatchAt norm with
  | some a => digitsOnly a
  | none => []

/-- Lines 60–66: scan the account candidates, skipping an Aadhaar-like
12-digit number, and stop at the first one kept. -/
def bankLoop (aad : List Char) : List (List Char) → Option (List Char)
  | [] => none
  | d :: rest => if d = aad ∧ d.length = 12 then bankLoop aad rest else some d

def bankField (norm : List Char) : Option String :=
  (bankLoop (aadhaarDigitsOf norm) (accFindAll norm)).map chStr

/-- Lines 74–77: index of the first line containing "emergency". -/
def emergencyIdx (lines : List (List Char)) : Option Nat :=
  lines.findIdx? (fun ln => hasSub ("emergency".data) (pyLower ln))

/-- Lines 83–87: first line of the block with a `PHONE_REGEX` match. -/
def blockPhone : List (List Char) → Option (List Char)
  | [] => none
  | ln :: rest =>
    match reSearch phoneMatchAt ln with
    | some m => some (last10 (digitsOnly m))
    | none => blockPhone rest

/-- Lines 91–95: `parts = ln.split(":")`, then `parts[1].strip()` when the
split produced at least two parts, else the whole stripped line. -/
def colonValue (ln : List Char) : List Char :=
  match splitAllOn ':' ln with
  | _ :: p1 :: _ => pyStrip p1
  | _ => pyStrip ln

/-- Lines 89–96: first line of the block containing "name". -/
def blockName : List (List Char) → Option (List Char)
  | [] => none
  | ln :: rest =>
    if hasSub ("name".data) (pyLower ln) then some (colonValue ln)
    else blockName rest

/-- Lines 69–96: the emergency-contact block and its two fields. -/
def emergencyPhoneField (lines : List (List Char)) : Option String :=
  match emergencyIdx lines with
  | none => none
  | some i => (blockPhone ((lines.drop i).take 5)).map chStr

def emergencyNameField (lines : List (List Char)) : Option String :=
  match emergencyIdx lines with
  | none => none
  | some i => (blockName ((lines.drop i).take 5)).map chStr

/-- The line filter of lines 100–102: contains "name", neither "father" nor
"emergency". -/
def namePred (ln : List Char) : Bool :=
  hasSub ("name".data) (pyLower ln) && !hasSub ("father".data) (pyLower ln) &&
    !hasSub ("emergency".data) (pyLower ln)

/-- Lines 99–108: candidate name. -/
def nameLoop : List (List Char) → Option (List Char)
  | [] => none
  | ln :: rest => if namePred ln then some (colonValue ln) else nameLoop rest

def nameField (lines : List (List Char)) : Option String :=
  (nameLoop lines).map chStr

/-- Lines 112–116: index of the first line containing "address". -/
def addrIdx (lines : List (List Char)) : Option Nat :=
  lines.findIdx? (fun ln => hasSub ("address".data) (pyLower ln))

/-- The section-header keywords of lines 130–141. -/
def kwList : List (List Char) :=
  ["bank details".data, "bank account".data, "ifsc".data,
   "emergency contact".data, "pan number".data, "aadhaar number".data,
   "candidate information".data]

def stopLine (ln : List Char) : Bool :=
  kwList.any (fun k => hasSub k (pyLower ln))

/-- Lines 127–143: consume following lines until a section header. -/
def addrConsume : List (List Char) → List (List Char)
  | [] => []
  | ln :: rest => if stopLine ln then [] else pyStrip ln :: addrConsume rest

/-- Lines 110–146: multi-line address. -/
def addressField (lines : List (List Char)) : Option String :=
  match addrIdx lines with
  | none => none
  | some i =>
    let firstLine := lines.getD i []
    let headFrag : List (List Char) :=
      match splitOnceOn ':' firstLine with
      | some p => if (pyStrip p.2).isEmpty then [] else [pyStrip p.2]
      | none => []
    let frags := headFrag ++ addrConsume (lines.drop (i + 1))
    if frags.isEmpty then none else some (chStr (List.intercalate (", ".data) frags))

/-- The record of lines 148–160, one per document. -/
structure ExtractedRecord where
  name : Option String
  email : Option String
  phone : Option String
  pan : Option String
  aadhaar : Option String
  address : Option String
  bank_account : Option String
  ifsc : Option String
  emergency_contact_name : Option String
  emergency_contact_phone : Option String
  source_file_name : String
deriving Repr, DecidableEq

/-- `extract_fields_rule_based` (lines 23–160 of src/main.py). -/
def extract_fields_rule_based (text : String) (source_file_name : String) :
    ExtractedRecord :=
  let norm := pyNormOf text
  let lines := linesOf text
  { name := nameField lines
    email := emailField norm
    phone := phoneField norm
    pan := panField norm
    aadhaar := aadhaarField norm
    address := addressField lines
    bank_account := bankField norm
    ifsc := ifscField norm
    emergency_contact_name := emergencyNameField lines
    emergency_contact_phone := emergencyPhoneField lines
    source_file_name := source_file_name }

/-- The record produced for a document whose text extraction failed (empty
text): all fields null except the source file name. -/
def allNullRecord (n : String) : ExtractedRecord :=
  { name := none, email := none, phone := none, pan := none, aadhaar := none,
    address := none, bank_account := none, ifsc := none,
    emergency_contact_name := none, emergency_contact_phone := none,
    source_file_name := n }

/-- The batch loop of lines 241–245: one text extraction and one record per
uploaded file, in input order.  The PDF-to-text collaborator is external to
the core (spec §6) and is abstracted by `getText`. -/
def processBatch {β : Type} (getText : β → String)
    (pairs : List (β × String)) : List ExtractedRecord :=
  pairs.map (fun p => extract_fields_rule_based (getText p.1) p.2)

/-! ### Basic facts about the substring test -/

theorem leadsWith_append (d r : List Char) : leadsWith (d ++ r) d = true := by
  induction d with
  | nil => cases r <;> rfl
  | cons c cs ih => simp [leadsWith, ih]

theorem leadsWith_exists {s d : List Char} (h : leadsWith s d = true) :
    ∃ r, s = d ++ r := by
  induction d generalizing s with
  | nil => exact ⟨s, rfl⟩
  | cons c cs ih =>
    cases s with
    | nil => simp [leadsWith] at h
    | cons x xs =>
      rw [leadsWith, Bool.and_eq_true, decide_eq_true_eq] at h
      obtain ⟨r, hr⟩ := ih h.2
      exact ⟨r, by rw [h.1, List.cons_append, hr]⟩

theorem hasSub_of_leads {s d : List Char} (h : leadsWith s d = true) :
    hasSub d s = true := by
  cases s with
  | nil => cases d with
    | nil => rfl
    | cons c cs => simp [leadsWith] at h
  | cons c t => rw [hasSub, h, Bool.true_or]

theorem hasSub_cons {d t : List Char} (c : Char) (h : hasSub d t = true) :
    hasSub d (c :: t) = true := by
  rw [hasSub, h, Bool.or_true]

theorem hasSub_append_left {d s : List Char} (pre : List Char)
    (h : hasSub d s = true) : hasSub d (pre ++ s) = true := by
  induction pre with
  | nil => exact h
  | cons c cs ih => exact hasSub_cons c ih

theorem hasSub_refl_append (d r : List Char) : hasSub d (d ++ r) = true :=
  hasSub_of_leads (leadsWith_append d r)

theorem hasSub_of_parts {s pre core : List Char}
    (h : hasSub (pre ++ core) s = true) : hasSub core s = true := by
  induction s with
  | nil =>
    rw [hasSub, List.isEmpty_iff, List.append_eq_nil] at h
    rw [h.2, hasSub]
    rfl
  | cons c t ih =>
    rw [hasSub, Bool.or_eq_true] at h
    rcases h with h | h
    · obtain ⟨r, hr⟩ := leadsWith_exists h
      rw [hr, List.append_assoc]
      exact hasSub_append_left pre (hasSub_refl_append core r)
    · exact hasSub_cons c (ih h)

theorem hasSub_drop {d s : List Char} :
    ∀ {k : Nat}, hasSub d (s.drop k) = true → hasSub d s = true := by
  intro k
  induction s generalizing k with
  | nil => intro h; simpa using h
  | cons c t ih =>
    intro h
    cases k with
    | zero => exact h
    | succ m => exact hasSub_cons c (ih (by simpa using h))

theorem leadsWith_take (s : List Char) : ∀ k : Nat, leadsWith s (s.take k) = true := by
  induction s with
  | nil => intro k; cases k <;> rfl
  | cons c t ih =>
    intro k
    cases k with
    | zero => rfl
    | succ m => simp [List.take_succ_cons, leadsWith, ih]

theorem hasSub_take (s : List Char) (k : Nat) : hasSub (s.take k) s = true :=
  hasSub_of_leads (leadsWith_take s k)

/-! ### Facts about the class-sequence matcher -/

theorem matchClasses_append {ps : List (Char → Bool)} :
    ∀ {l m r : List Char}, matchClasses ps l = some (m, r) →
      l = m ++ r ∧ m.length = ps.length := by
  induction ps with
  | nil => intro l m r h; rw [matchClasses] at h; cases h; exact ⟨rfl, rfl⟩
  | cons p ps ih =>
    intro l m r h
    cases l with
    | nil => rw [matchClasses] at h; cases h
    | cons c t =>
      rw [matchClasses] at h
      by_cases hp : p c = true
      · rw [if_pos hp] at h
        cases hmc : matchClasses ps t with
        | none => rw [hmc] at h; cases h
        | some q =>
          rw [hmc] at h
          cases h
          have := ih hmc
          simp [this.1, this.2]
      · rw [if_neg hp] at h; cases h

theorem matchClasses_replicate {n : Nat} {p : Char → Bool} :
    ∀ {l m r : List Char}, matchClasses (List.replicate n p) l = some (m, r) →
      l = m ++ r ∧ m.length = n ∧ m.all p = true := by
  induction n with
  | zero =>
    intro l m r h
    rw [List.replicate, matchClasses] at h
    cases h
    exact ⟨rfl, rfl, rfl⟩
  | succ k ih =>
    intro l m r h
    rw [List.replicate] at h
    cases l with
    | nil => rw [matchClasses] at h; cases h
    | cons c t =>
      rw [matchClasses] at h
      by_cases hp : p c = true
      · rw [if_pos hp] at h
        cases hmc : matchClasses (List.replicate k p) t with
        | none => rw [hmc] at h; cases h
        | some q =>
          rw [hmc] at h
          cases h
          have := ih hmc
          refine ⟨by simp [this.1], by simp [this.2.1], ?_⟩
          simp [List.all_cons, hp, this.2.2]
      · rw [if_neg hp] at h; cases h

/-! ### The scanning loops are first-match combinators -/

/-- The keep condition of the bank-account loop: not an Aadhaar-like
12-digit candidate. -/
def bankKeep (aad d : List Char) : Bool := !(d == aad && d.length == 12)

theorem bankLoop_eq_find? (aad : List Char) (ds : List (List Char)) :
    bankLoop aad ds = ds.find? (bankKeep aad) := by
  induction ds with
  | nil => rfl
  | cons d rest ih =>
    rw [bankLoop, List.find?_cons]
    by_cases hd : d = aad ∧ d.length = 12
    · have hk : bankKeep aad d = false := by
        obtain ⟨h1, h2⟩ := hd
        subst h1
        simp [bankKeep, h2]
      rw [if_pos hd, hk, ih]
    · have hk : bankKeep aad d = true := by
        rw [Decidable.not_and_iff_or_not] at hd
        rcases hd with hd | hd <;> simp [bankKeep, hd]
      rw [if_neg hd, hk]

theorem find?_eq_head?_filter {α : Type} (p : α → Bool) (l : List α) :
    l.find? p = (l.filter p).head? := by
  induction l with
  | nil => rfl
  | cons a t ih =>
    rw [List.find?_cons, List.filter_cons]
    cases hp : p a
    · simpa using ih
    · simp

theorem addrConsume_eq_takeWhile (ls : List (List Char)) :
    addrConsume ls = (ls.takeWhile (fun ln => !stopLine ln)).map pyStrip := by
  induction ls with
  | nil => rfl
  | cons ln rest ih =>
    rw [addrConsume, List.takeWhile_cons]
    cases hs : stopLine ln
    · simp [ih]
    · simp

theorem blockPhone_eq_findSome? (ls : List (List Char)) :
    blockPhone ls =
      ls.findSome? (fun ln =>
        (reSearch phoneMatchAt ln).map (fun m => last10 (digitsOnly m))) := by
  induction ls with
  | nil => rfl
  | cons ln rest ih =>
    rw [blockPhone, List.findSome?_cons]
    cases h : reSearch phoneMatchAt ln
    · simpa [h] using ih
    · simp [h]

theorem blockName_eq_find? (ls : List (List Char)) :
    blockName ls =
      (ls.find? (fun ln => hasSub ("name".data) (pyLower ln))).map colonValue := by
  induction ls with
  | nil => rfl
  | cons ln rest ih =>
    rw [blockName, List.find?_cons]
    cases h : hasSub ("name".data) (pyLower ln)
    · simpa [h] using ih
    · simp [h]

theorem nameLoop_eq_find? (ls : List (List Char)) :
    nameLoop ls = (ls.find? namePred).map colonValue := by
  induction ls with
  | nil => rfl
  | cons ln rest ih =>
    rw [nameLoop, List.find?_cons]
    cases h : namePred ln
    · simpa [h] using ih
    · simp [h]

/-! ### Unfolding equations for the account finditer -/

theorem accMatchAt_nil_none (prev : Option Char) : accMatchAt prev [] = none := by
  cases hm : accMatchAt prev [] with
  | none => rfl
  | some k =>
    obtain ⟨h9, _, hlen, _⟩ := accMatchAt_some hm
    simp at hlen
    omega

theorem accFindFrom_succ (m : Nat) (prev : Option Char) (s : List Char) :
    accFindFrom (m + 1) prev s =
      match accMatchAt prev s with
      | some k => s.take k :: accFindFrom m ((s.take k).getLast?) (s.drop k)
      | none =>
        match s with
        | [] => []
        | c :: t => accFindFrom m (some c) t := rfl

theorem accFindFrom_nil (fuel : Nat) (prev : Option Char) :
    accFindFrom fuel prev [] = [] := by
  cases fuel with
  | zero => rfl
  | succ m =>
    rw [accFindFrom_succ, accMatchAt_nil_none]

/-- Every candidate produced by the account matcher is a standalone run of 9
to 18 digits occurring contiguously in the scanned text. -/
theorem accFindFrom_props :
    ∀ (fuel : Nat) (prev : Option Char) (s : List Char), s.length < fuel →
      ∀ d ∈ accFindFrom fuel prev s,
        9 ≤ d.length ∧ d.length ≤ 18 ∧ d.all isDigitChar = true ∧
          hasSub d s = true := by
  intro fuel
  induction fuel with
  | zero =>
    intro prev s hs d hd
    exact absurd hs (by omega)
  | succ m ih =>
    intro prev s hs d hd
    rw [accFindFrom_succ] at hd
    cases hm : accMatchAt prev s with
    | some k =>
      obtain ⟨h9, h18, hlen, hall, _⟩ := accMatchAt_some hm
      simp only [hm] at hd
      rcases List.mem_cons.mp hd with hd | hd
      · subst hd
        have hl : (s.take k).length = k := by
          rw [List.length_take]
          omega
        exact ⟨by omega, by omega, hall, hasSub_take s k⟩
      · have hrec := ih ((s.take k).getLast?) (s.drop k)
          (by rw [List.length_drop]; omega) d hd
        exact ⟨hrec.1, hrec.2.1, hrec.2.2.1, hasSub_drop hrec.2.2.2⟩
    | none =>
      simp only [hm] at hd
      cases s with
      | nil => cases hd
      | cons c t =>
        have hrec := ih (some c) t (by simp at hs; omega) d hd
        exact ⟨hrec.1, hrec.2.1, hrec.2.2.1, hasSub_cons c hrec.2.2.2⟩

theorem accFindAll_props {s : List Char} {d : List Char}
    (hd : d ∈ accFindAll s) :
    9 ≤ d.length ∧ d.length ≤ 18 ∧ d.all isDigitChar = true ∧
      hasSub d s = true :=
  accFindFrom_props (s.length + 1) none s (by omega) d hd

/-! ### Texts with no nine consecutive digits have no account candidates -/

/-- There are nine digits right at the head. -/
def nineDigitsHere (s : List Char) : Bool :=
  decide (9 ≤ s.length) && (s.take 9).all isDigitChar

/-- Some position of `s` starts a run of nine consecutive digits. -/
def hasNineDigitRun : List Char → Bool
  | [] => false
  | c :: t => nineDigitsHere (c :: t) || hasNineDigitRun t

theorem hasNineDigitRun_of_short {s : List Char} (h : s.length ≤ 8) :
    hasNineDigitRun s = false := by
  induction s with
  | nil => rfl
  | cons c t ih =>
    rw [hasNineDigitRun]
    have h1 : nineDigitsHere (c :: t) = false := by
      rw [nineDigitsHere]
      have hd : decide (9 ≤ (c :: t).length) = false := by
        simp at h ⊢
        omega
      rw [hd, Bool.false_and]
    rw [h1, ih (by simp at h; omega)]
    rfl

theorem hasNineDigitRun_append {q : List Char} {w : Char}
    (hw : isDigitChar w = false) (hq : hasNineDigitRun q = false) :
    ∀ {p : List Char}, hasNineDigitRun p = false →
      hasNineDigitRun (p ++ w :: q) = false := by
  intro p
  induction p with
  | nil =>
    intro _
    rw [List.nil_append, hasNineDigitRun]
    have h1 : nineDigitsHere (w :: q) = false := by
      have : ((w :: q).take 9).all isDigitChar = false := by
        rw [List.take_succ_cons, List.all_cons, hw, Bool.false_and]
      rw [nineDigitsHere, this, Bool.and_false]
    rw [h1, hq]
    rfl
  | cons c p' ih =>
    intro hp
    rw [hasNineDigitRun, Bool.or_eq_false_iff] at hp
    rw [List.cons_append, hasNineDigitRun, Bool.or_eq_false_iff]
    refine ⟨?_, ih hp.2⟩
    rcases Nat.lt_or_ge (c :: p').length 9 with hlen | hlen
    · have h9 : (9 : Nat) - (c :: p').length = (8 - (c :: p').length) + 1 := by
        simp at hlen ⊢
        omega
      have hfalse : (((c :: p') ++ w :: q).take 9).all isDigitChar = false := by
        rw [List.take_append_eq_append_take, h9, List.all_append]
        have ht : List.take ((8 - (c :: p').length) + 1) (w :: q) =
            w :: List.take (8 - (c :: p').length) q := List.take_succ_cons
        rw [ht, List.all_cons, hw]
        simp
      rw [nineDigitsHere, ← List.cons_append, hfalse, Bool.and_false]
    · have hdec : decide (9 ≤ (c :: p').length) = true := by simpa using hlen
      have hall : ((c :: p').take 9).all isDigitChar = false := by
        have h1 := hp.1
        rw [nineDigitsHere, hdec, Bool.true_and] at h1
        exact h1
      have h0 : (9 : Nat) - (c :: p').length = 0 := by omega
      have hfalse : (((c :: p') ++ w :: q).take 9).all isDigitChar = false := by
        rw [List.take_append_eq_append_take, h0, List.take_zero,
            List.append_nil, hall]
      rw [nineDigitsHere, ← List.cons_append, hfalse, Bool.and_false]

theorem accMatchAt_none_of_noNine {prev : Option Char} {s : List Char}
    (h : hasNineDigitRun s = false) : accMatchAt prev s = none := by
  cases hm : accMatchAt prev s with
  | none => rfl
  | some k =>
    exfalso
    obtain ⟨h9, _, hlen, hall, _⟩ := accMatchAt_some hm
    have h9s : 9 ≤ s.length := le_trans h9 hlen
    have htk : (s.take 9).all isDigitChar = true := by
      rw [List.all_eq_true]
      intro x hx
      have hx2 : x ∈ s.take k := by
        have hsub : s.take 9 = (s.take k).take 9 := by
          rw [List.take_take]
          have : (9 : Nat) ⊓ k = 9 := by omega
          rw [this]
        rw [hsub] at hx
        exact List.take_subset 9 _ hx
      exact List.all_eq_true.mp hall x hx2
    cases s with
    | nil => simp at h9s
    | cons c t =>
      rw [hasNineDigitRun, Bool.or_eq_false_iff] at h
      have hhere : nineDigitsHere (c :: t) = true := by
        rw [nineDigitsHere, htk, Bool.and_true]
        simpa using h9s
      rw [hhere] at h
      exact absurd h.1 (by simp)

theorem accFindFrom_nil_of_noNine :
    ∀ (fuel : Nat) (prev : Option Char) (s : List Char),
      hasNineDigitRun s = false → accFindFrom fuel prev s = [] := by
  intro fuel
  induction fuel with
  | zero => intro prev s _; rfl
  | succ m ih =>
    intro prev s h
    rw [accFindFrom_succ, accMatchAt_none_of_noNine h]
    cases s with
    | nil => rfl
    | cons c t =>
      rw [hasNineDigitRun, Bool.or_eq_false_iff] at h
      exact ih (some c) t h.2

theorem accFindAll_nil_of_noNine {s : List Char}
    (h : hasNineDigitRun s = false) : accFindAll s = [] :=
  accFindFrom_nil_of_noNine (s.length + 1) none s h

/-! ### Where a search result comes from -/

theorem searchFrom_cases {mA : Option Char → List Char → Option (List Char)}
    {m : List Char} :
    ∀ {prev : Option Char} {s : List Char}, searchFrom mA prev s = some m →
      ∃ p t, mA p t = some m ∧
        ∀ d : List Char, hasSub d t = true → hasSub d s = true := by
  intro prev s
  induction s generalizing prev with
  | nil =>
    intro h
    rw [searchFrom] at h
    cases hm : mA prev [] with
    | some m2 =>
      simp only [hm] at h
      cases h
      exact ⟨prev, [], hm, fun d hd => hd⟩
    | none => simp only [hm] at h; cases h
  | cons c t ih =>
    intro h
    rw [searchFrom] at h
    cases hm : mA prev (c :: t) with
    | some m2 =>
      simp only [hm] at h
      cases h
      exact ⟨prev, c :: t, hm, fun d hd => hd⟩
    | none =>
      simp only [hm] at h
      obtain ⟨p, t2, hp, hlift⟩ := ih h
      exact ⟨p, t2, hp, fun d hd => hasSub_cons c (hlift d hd)⟩

theorem reSearch_cases {mA : Option Char → List Char → Option (List Char)}
    {s m : List Char} (h : reSearch mA s = some m) :
    ∃ p t, mA p t = some m ∧
      ∀ d : List Char, hasSub d t = true → hasSub d s = true :=
  searchFrom_cases h

/-! ### Character-class facts -/

theorem space_not_digit {c : Char} (h : pyIsSpace c = true) :
    isDigitChar c = false := by
  rw [pyIsSpace] at h
  simp only [Bool.or_eq_true, decide_eq_true_eq] at h
  rcases h with ((((rfl | rfl) | rfl) | rfl) | rfl) | rfl <;> decide

theorem six_nine_digit {c : Char} (h1 : '6' ≤ c) (h2 : c ≤ '9') :
    isDigitChar c = true := by
  rw [isDigitChar, Bool.and_eq_true, decide_eq_true_eq, decide_eq_true_eq]
  exact ⟨le_trans (by decide) h1, h2⟩

theorem digitsOnly_all {m : List Char} (h : m.all isDigitChar = true) :
    digitsOnly m = m :=
  List.filter_eq_self.mpr (List.all_eq_true.mp h)

theorem digitsOnly_cons_digit {c : Char} {l : List Char}
    (h : isDigitChar c = true) : digitsOnly (c :: l) = c :: digitsOnly l := by
  rw [digitsOnly, List.filter_cons, if_pos h]
  rfl

theorem digitsOnly_cons_other {c : Char} {l : List Char}
    (h : isDigitChar c = false) : digitsOnly (c :: l) = digitsOnly l := by
  rw [digitsOnly, List.filter_cons, if_neg (by simp [h])]
  rfl

theorem last10_len10 {l : List Char} (h : l.length = 10) : last10 l = l := by
  rw [last10, h]
  simp

theorem last10_two_prefix {a b : Char} {l : List Char} (h : l.length = 10) :
    last10 (a :: b :: l) = l := by
  rw [last10]
  simp [h]

/-! ### Shape of a phone match -/

theorem phoneCore_shape {t m : List Char} (h : phoneCore t = some m) :
    ∃ c cs r, m = c :: cs ∧ ('6' ≤ c ∧ c ≤ '9') ∧ cs.length = 9 ∧
      cs.all isDigitChar = true ∧ t = m ++ r := by
  cases t with
  | nil => rw [phoneCore] at h; cases h
  | cons c t2 =>
    rw [phoneCore] at h
    by_cases hc : ('6' ≤ c && c ≤ '9') = true
    · rw [if_pos hc] at h
      cases hmc : matchClasses (digitCs 9) t2 with
      | none => rw [hmc] at h; cases h
      | some r2 =>
        rw [hmc] at h
        cases h
        obtain ⟨ht, hlen, hall⟩ := matchClasses_replicate hmc
        rw [Bool.and_eq_true, decide_eq_true_eq, decide_eq_true_eq] at hc
        exact ⟨c, r2.1, r2.2, rfl, hc, hlen, hall, by rw [ht]; rfl⟩
    · rw [if_neg hc] at h; cases h

theorem phoneCore_all_digits {t m : List Char} (h : phoneCore t = some m) :
    m.all isDigitChar = true ∧ m.length = 10 := by
  obtain ⟨c, cs, r, hm, hc, hlen, hall, _⟩ := phoneCore_shape h
  subst hm
  refine ⟨?_, by simp [hlen]⟩
  rw [List.all_cons, six_nine_digit hc.1 hc.2, hall]
  rfl

/-- A match of the optional-prefix branch of `PHONE_REGEX`. -/
theorem phonePre_shape {t m : List Char} (h : phonePre t = some m) :
    ∃ pre core r,
      m = pre ++ core ∧ t = m ++ r ∧ last10 (digitsOnly m) = core ∧
      core.length = 10 ∧ core.all isDigitChar = true ∧
      (∃ c cs, core = c :: cs ∧ '6' ≤ c ∧ c ≤ '9') := by
  cases t with
  | nil => simp [phonePre] at h
  | cons c1 t1 =>
    cases t1 with
    | nil => simp [phonePre] at h
    | cons c2 t2 =>
      cases t2 with
      | nil => simp [phonePre] at h
      | cons c3 r =>
        rw [phonePre] at h
        by_cases h123 : c1 = '+' ∧ c2 = '9' ∧ c3 = '1'
        · obtain ⟨rfl, rfl, rfl⟩ := h123
          rw [if_pos ⟨rfl, rfl, rfl⟩] at h
          cases hsep : phoneSep r with
          | some m3 =>
            simp only [hsep] at h
            cases h
            cases r with
            | nil => rw [phoneSep] at hsep; cases hsep
            | cons c r2 =>
              rw [phoneSep] at hsep
              by_cases hc : (c = '-' || pyIsSpace c) = true
              · rw [if_pos hc] at hsep
                cases hco : phoneCore r2 with
                | none => rw [hco] at hsep; cases hsep
                | some mc =>
                  rw [hco] at hsep
                  cases hsep
                  obtain ⟨hall, hlen⟩ := phoneCore_all_digits hco
                  obtain ⟨c0, cs, rr, hmc, hc0, _, _, hr2⟩ := phoneCore_shape hco
                  have hcd : isDigitChar c = false := by
                    rw [Bool.or_eq_true, decide_eq_true_eq] at hc
                    rcases hc with rfl | hc
                    · decide
                    · exact space_not_digit hc
                  refine ⟨['+', '9', '1', c], mc, rr, by simp, by simp [hr2], ?_,
                    hlen, hall, c0, cs, hmc, hc0⟩
                  rw [show ('+' :: '9' :: '1' :: c :: mc) = '+' :: '9' :: '1' :: c :: mc from rfl,
                      digitsOnly_cons_other (by decide), digitsOnly_cons_digit (by decide),
                      digitsOnly_cons_digit (by decide), digitsOnly_cons_other hcd,
                      digitsOnly_all hall, last10_two_prefix hlen]
              · rw [if_neg hc] at hsep; cases hsep
          | none =>
            simp only [hsep] at h
            cases hco : phoneCore r with
            | none => simp only [hco] at h; cases h
            | some mc =>
              simp only [hco] at h
              cases h
              obtain ⟨hall, hlen⟩ := phoneCore_all_digits hco
              obtain ⟨c0, cs, rr, hmc, hc0, _, _, hr2⟩ := phoneCore_shape hco
              refine ⟨['+', '9', '1'], mc, rr, by simp, by simp [hr2], ?_,
                hlen, hall, c0, cs, hmc, hc0⟩
              rw [digitsOnly_cons_other (by decide), digitsOnly_cons_digit (by decide),
                  digitsOnly_cons_digit (by decide), digitsOnly_all hall,
                  last10_two_prefix hlen]
        · rw [if_neg h123] at h; cases h

/-- Every phone match normalises to its 10-digit core, which starts with a
digit 6-9 and occurs contiguously in the scanned string. -/
theorem phoneMatchAt_shape {p : Option Char} {t m : List Char}
    (h : phoneMatchAt p t = some m) :
    ∃ pre core r,
      m = pre ++ core ∧ t = m ++ r ∧ last10 (digitsOnly m) = core ∧
      core.length = 10 ∧ core.all isDigitChar = true ∧
      (∃ c cs, core = c :: cs ∧ '6' ≤ c ∧ c ≤ '9') := by
  rw [phoneMatchAt] at h
  cases hpre : phonePre t with
  | some m2 =>
    simp only [hpre] at h
    cases h
    exact phonePre_shape hpre
  | none =>
    simp only [hpre] at h
    obtain ⟨hall, hlen⟩ := phoneCore_all_digits h
    obtain ⟨c0, cs, rr, hmc, hc0, _, _, hr2⟩ := phoneCore_shape h
    exact ⟨[], m, rr, by simp, hr2, by rw [digitsOnly_all hall, last10_len10 hlen],
      hlen, hall, c0, cs, hmc, hc0⟩

/-! ### Shape of an Aadhaar match -/

theorem aadEnd_shape {d1 sp1 d2 sp2 r4 m : List Char}
    (h : aadEnd d1 sp1 d2 sp2 r4 = some m) :
    ∃ d3 r5, m = d1 ++ sp1 ++ d2 ++ sp2 ++ d3 ∧ r4 = d3 ++ r5 ∧
      d3.length = 4 ∧ d3.all isDigitChar = true := by
  rw [aadEnd] at h
  cases hmc : matchClasses (digitCs 4) r4 with
  | none => simp only [hmc] at h; cases h
  | some r =>
    simp only [hmc] at h
    by_cases hb : nonWordAfter r.2 = true
    · rw [if_pos hb] at h
      cases h
      obtain ⟨hr, hlen, hall⟩ := matchClasses_replicate hmc
      exact ⟨r.1, r.2, rfl, hr, hlen, hall⟩
    · rw [if_neg hb] at h; cases h

theorem aadSp2_shape {sp : Char → Bool} {d1 sp1 d2 r3 m : List Char}
    (h : aadSp2 sp d1 sp1 d2 r3 = some m) :
    ∃ sp2 r4,
      ((sp2 = [] ∧ r3 = r4) ∨ (∃ c, sp2 = [c] ∧ sp c = true ∧ r3 = c :: r4)) ∧
      aadEnd d1 sp1 d2 sp2 r4 = some m := by
  cases r3 with
  | nil =>
    rw [aadSp2] at h
    exact ⟨[], [], Or.inl ⟨rfl, rfl⟩, h⟩
  | cons c r4 =>
    rw [aadSp2] at h
    by_cases hc : sp c = true
    · rw [if_pos hc] at h
      cases he : aadEnd d1 sp1 d2 [c] r4 with
      | some m2 =>
        simp only [he] at h
        cases h
        exact ⟨[c], r4, Or.inr ⟨c, rfl, hc, rfl⟩, he⟩
      | none =>
        simp only [he] at h
        exact ⟨[], c :: r4, Or.inl ⟨rfl, rfl⟩, h⟩
    · rw [if_neg hc] at h
      exact ⟨[], c :: r4, Or.inl ⟨rfl, rfl⟩, h⟩

theorem aadD2_shape {sp : Char → Bool} {d1 sp1 r2 m : List Char}
    (h : aadD2 sp d1 sp1 r2 = some m) :
    ∃ d2 r3, r2 = d2 ++ r3 ∧ d2.length = 4 ∧ d2.all isDigitChar = true ∧
      aadSp2 sp d1 sp1 d2 r3 = some m := by
  rw [aadD2] at h
  cases hmc : matchClasses (digitCs 4) r2 with
  | none => simp only [hmc] at h; cases h
  | some r =>
    simp only [hmc] at h
    obtain ⟨hr, hlen, hall⟩ := matchClasses_replicate hmc
    exact ⟨r.1, r.2, hr, hlen, hall, h⟩

theorem aadSp1_shape {sp : Char → Bool} {d1 r1 m : List Char}
    (h : aadSp1 sp d1 r1 = some m) :
    ∃ sp1 r2,
      ((sp1 = [] ∧ r1 = r2) ∨ (∃ c, sp1 = [c] ∧ sp c = true ∧ r1 = c :: r2)) ∧
      aadD2 sp d1 sp1 r2 = some m := by
  cases r1 with
  | nil =>
    rw [aadSp1] at h
    exact ⟨[], [], Or.inl ⟨rfl, rfl⟩, h⟩
  | cons c r2 =>
    rw [aadSp1] at h
    by_cases hc : sp c = true
    · rw [if_pos hc] at h
      cases he : aadD2 sp d1 [c] r2 with
      | some m2 =>
        simp only [he] at h
        cases h
        exact ⟨[c], r2, Or.inr ⟨c, rfl, hc, rfl⟩, he⟩
      | none =>
        simp only [he] at h
        exact ⟨[], c :: r2, Or.inl ⟨rfl, rfl⟩, h⟩
    · rw [if_neg hc] at h
      exact ⟨[], c :: r2, Or.inl ⟨rfl, rfl⟩, h⟩

/-- Every Aadhaar match is three four-digit groups with at most one separator
character of the class `sp` between consecutive groups, and it is a leading
slice of the scanned position. -/
theorem aadFrom_shape {sp : Char → Bool} {s m : List Char}
    (h : aadFrom sp s = some m) :
    ∃ d1 s1 d2 s2 d3 rest,
      m = d1 ++ s1 ++ d2 ++ s2 ++ d3 ∧ s = m ++ rest ∧
      d1.length = 4 ∧ d1.all isDigitChar = true ∧
      d2.length = 4 ∧ d2.all isDigitChar = true ∧
      d3.length = 4 ∧ d3.all isDigitChar = true ∧
      (s1 = [] ∨ ∃ c, s1 = [c] ∧ sp c = true) ∧
      (s2 = [] ∨ ∃ c, s2 = [c] ∧ sp c = true) := by
  rw [aadFrom] at h
  cases hmc : matchClasses (digitCs 4) s with
  | none => simp only [hmc] at h; cases h
  | some r =>
    simp only [hmc] at h
    obtain ⟨hs, hlen1, hall1⟩ := matchClasses_replicate hmc
    obtain ⟨sp1, r2, hsp1, hd2⟩ := aadSp1_shape h
    obtain ⟨d2, r3, hr2, hlen2, hall2, hsp2m⟩ := aadD2_shape hd2
    obtain ⟨sp2, r4, hsp2, hend⟩ := aadSp2_shape hsp2m
    obtain ⟨d3, r5, hm, hr4, hlen3, hall3⟩ := aadEnd_shape hend
    have hsp1e : (sp1 = [] ∨ ∃ c, sp1 = [c] ∧ sp c = true) ∧ r.2 = sp1 ++ r2 := by
      rcases hsp1 with ⟨h1, h2⟩ | ⟨c, h1, h2, h3⟩
      · exact ⟨Or.inl h1, by rw [h1, h2]; rfl⟩
      · exact ⟨Or.inr ⟨c, h1, h2⟩, by rw [h1, h3]; rfl⟩
    have hsp2e : (sp2 = [] ∨ ∃ c, sp2 = [c] ∧ sp c = true) ∧ r3 = sp2 ++ r4 := by
      rcases hsp2 with ⟨h1, h2⟩ | ⟨c, h1, h2, h3⟩
      · exact ⟨Or.inl h1, by rw [h1, h2]; rfl⟩
      · exact ⟨Or.inr ⟨c, h1, h2⟩, by rw [h1, h3]; rfl⟩
    refine ⟨r.1, sp1, d2, sp2, d3, r5, hm, ?_, hlen1, hall1, hlen2, hall2,
      hlen3, hall3, hsp1e.1, hsp2e.1⟩
    rw [hs, hsp1e.2, hr2, hsp2e.2, hr4, hm]
    simp [List.append_assoc]

theorem aadMatchAt_from {p : Option Char} {t m : List Char}
    (h : aadMatchAt p t = some m) : aadFrom pyIsSpace t = some m := by
  rw [aadMatchAt] at h
  by_cases hb : nonWordBefore p = true
  · rwa [if_pos hb] at h
  · rw [if_neg hb] at h; cases h

/-! ### Definitions taken from the words of the specification, for comparison
with the code -/

/-- Modelled from the spec: "if the line contains a colon, the value is the
trimmed text after the first colon, else the entire trimmed line is used". -/
def specColonValue (ln : List Char) : List Char :=
  match splitOnceOn ':' ln with
  | some p => pyStrip p.2
  | none => pyStrip ln

/-- The value rule the code actually implements, written without the
`split` call: with a colon present the value is the trimmed text between the
first colon and the next colon, or up to the end of the line when the first
colon is the only one. -/
def betweenColons (ln : List Char) : List Char :=
  match splitOnceOn ':' ln with
  | none => pyStrip ln
  | some p =>
    match splitOnceOn ':' p.2 with
    | none => pyStrip p.2
    | some q => pyStrip q.1

/-- One attempt of the phone pattern as the spec words it, prefix
alternatives tried in order: "optional `+91` or `91` prefix, then a 10-digit
number starting with digit 6-9", keeping the optional single separator the
code allows after a prefix.  Modelled from the spec for comparison; the code
pattern has no bare `91` alternative. -/
def specSepCore (pfx : List Char) : List Char → Option (List Char)
  | [] => none
  | c :: r2 =>
    if c = '-' || pyIsSpace c then
      match phoneCore r2 with
      | some m => some (pfx ++ c :: m)
      | none =>
        match phoneCore (c :: r2) with
        | some m => some (pfx ++ m)
        | none => none
    else
      match phoneCore (c :: r2) with
      | some m => some (pfx ++ m)
      | none => none

def specTryPre (pfx s : List Char) : Option (List Char) :=
  if leadsWith s pfx then specSepCore pfx (s.drop pfx.length) else none

def specPhoneMatchAt (_prev : Option Char) (s : List Char) : Option (List Char) :=
  match specTryPre ['+', '9', '1'] s with
  | some m => some m
  | none =>
    match specTryPre ['9', '1'] s with
    | some m => some m
    | none => phoneCore s

/-- Modelled from the spec: the Aadhaar pattern with "single spaces between
groups" — the separator class is the literal space only, where the code
pattern uses the whitespace class `\s`. -/
def specAadMatchAt (prev : Option Char) (s : List Char) : Option (List Char) :=
  if nonWordBefore prev then aadFrom (fun c => c == ' ') s else none

/-! ### Projections of the extracted record -/

theorem extract_name (t n : String) :
    (extract_fields_rule_based t n).name = nameField (linesOf t) := rfl

theorem extract_email (t n : String) :
    (extract_fields_rule_based t n).email = emailField (pyNormOf t) := rfl

theorem extract_phone (t n : String) :
    (extract_fields_rule_based t n).phone = phoneField (pyNormOf t) := rfl

theorem extract_pan (t n : String) :
    (extract_fields_rule_based t n).pan = panField (pyNormOf t) := rfl

theorem extract_aadhaar (t n : String) :
    (extract_fields_rule_based t n).aadhaar = aadhaarField (pyNormOf t) := rfl

theorem extract_address (t n : String) :
    (extract_fields_rule_based t n).address = addressField (linesOf t) := rfl

theorem extract_bank (t n : String) :
    (extract_fields_rule_based t n).bank_account = bankField (pyNormOf t) := rfl

theorem extract_ifsc (t n : String) :
    (extract_fields_rule_based t n).ifsc = ifscField (pyNormOf t) := rfl

theorem extract_em_name (t n : String) :
    (extract_fields_rule_based t n).emergency_contact_name =
      emergencyNameField (linesOf t) := rfl

theorem extract_em_phone (t n : String) :
    (extract_fields_rule_based t n).emergency_contact_phone =
      emergencyPhoneField (linesOf t) := rfl

theorem extract_source (t n : String) :
    (extract_fields_rule_based t n).source_file_name = n := rfl

/-- The internal Aadhaar digit string of line 59 agrees with the digit-only
form of the aadhaar field of the produced record. -/
theorem aadhaarDigitsOf_record (t n : String) :
    aadhaarDigitsOf (pyNormOf t) =
      (match (extract_fields_rule_based t n).aadhaar with
       | some a => digitsOnly a.data
       | none => []) := by
  rw [extract_aadhaar, aadhaarField, aadhaarDigitsOf]
  cases h : reSearch aadMatchAt (pyNormOf t) with
  | none => rfl
  | some m => rfl

/-! ## The claims -/

/-- C1: the bank-account field scans the `ACCOUNT_REGEX` candidates of the
normalised whole text in order of appearance, skips a candidate exactly when
its digit string equals the Aadhaar digit-only form and has length 12, and
returns the first candidate kept (none when none remain); in particular a
text with an ungrouped 12-digit Aadhaar number and a separate 11-digit number
yields the 11-digit number. -/
theorem claim1_bank_account_selection :
    (∀ text name : String,
      (extract_fields_rule_based text name).bank_account =
        (((accFindAll (pyNormOf text)).filter
            (bankKeep (aadhaarDigitsOf (pyNormOf text)))).head?).map chStr) ∧
    (extract_fields_rule_based "Aadhaar: 123456789012\nAccount: 12345678901"
        "f.pdf").aadhaar = some "123456789012" ∧
    (extract_fields_rule_based "Aadhaar: 123456789012\nAccount: 12345678901"
        "f.pdf").bank_account = some "12345678901" := by
  refine ⟨fun text name => ?_, by decide, by decide⟩
  rw [extract_bank, bankField, bankLoop_eq_find?, find?_eq_head?_filter]

/-- C2: in every produced record, the bank-account value never equals the
digit-only form of the aadhaar value when both are 12-digit digit strings. -/
theorem claim2_disambiguation (text name : String) (b a : String)
    (hb : (extract_fields_rule_based text name).bank_account = some b)
    (ha : (extract_fields_rule_based text name).aadhaar = some a)
    (hb12 : b.data.length = 12)
    (ha12 : (digitsOnly a.data).length = 12) :
    b.data ≠ digitsOnly a.data := by
  rw [extract_bank, bankField, bankLoop_eq_find?] at hb
  rw [Option.map_eq_some'] at hb
  obtain ⟨d, hd, hchd⟩ := hb
  have hkeep := List.find?_some hd
  have hbd : b.data = d := by rw [← hchd]; rfl
  have haad : aadhaarDigitsOf (pyNormOf text) = digitsOnly a.data := by
    rw [aadhaarDigitsOf_record text name, ha]
  rw [bankKeep, haad, Bool.not_eq_true', Bool.and_eq_false_iff] at hkeep
  rcases hkeep with hk | hk
  · rw [hbd]
    intro hcontra
    rw [hcontra] at hk
    simp at hk
  · rw [hbd] at hb12
    intro _
    simp [hb12] at hk

/-- Witness for C2 at a concrete document text. -/
theorem claim2_disambiguation_witness :
    ("111111111111" : String).data ≠ digitsOnly ("123456789012" : String).data :=
  claim2_disambiguation "Aadhaar 123456789012 Acc 111111111111" "f.pdf"
    "111111111111" "123456789012" (by decide) (by decide) (by decide) (by decide)

/-- `extract_fields_rule_based` on empty text yields the all-null record. -/
theorem extract_empty (n : String) :
    extract_fields_rule_based "" n = allNullRecord n := rfl

/-- C3: one record per (bytes, name) pair in input order; a pair whose text
extraction yields no text (the spec policy for a failing document) still
yields a record with all fields null except the source file name, and does
not affect the remaining pairs.  The external PDF-to-text collaborator is
abstracted by `getText`, quantified over all of its possible behaviours. -/
theorem claim3_batch_resilience {β : Type} (getText : β → String)
    (pairs : List (β × String)) :
    (processBatch getText pairs).length = pairs.length ∧
    (∀ i : Nat, ∀ b : β, ∀ n : String, pairs.get? i = some (b, n) →
      (processBatch getText pairs).get? i =
        some (extract_fields_rule_based (getText b) n) ∧
      (∀ r, (processBatch getText pairs).get? i = some r →
        r.source_file_name = n) ∧
      (getText b = "" →
        (processBatch getText pairs).get? i = some (allNullRecord n))) := by
  constructor
  · rw [processBatch, List.length_map]
  · intro i b n hi
    have hmap : (processBatch getText pairs).get? i =
        some (extract_fields_rule_based (getText b) n) := by
      rw [processBatch, List.get?_map, hi]
      rfl
    refine ⟨hmap, ?_, ?_⟩
    · intro r hr
      rw [hmap] at hr
      cases hr
      rfl
    · intro hempty
      rw [hmap, hempty, extract_empty]

/-- Witness for C3: a two-document batch whose text extraction always fails
still yields one all-null record per document. -/
theorem claim3_batch_resilience_witness :
    (processBatch (fun _ : Nat => "") [(0, "a.pdf"), (1, "b.pdf")]).get? 1 =
      some (allNullRecord "b.pdf") ∧
    (processBatch (fun _ : Nat => "") [(0, "a.pdf"), (1, "b.pdf")]).length = 2 := by
  have h := claim3_batch_resilience (fun _ : Nat => "") [(0, "a.pdf"), (1, "b.pdf")]
  exact ⟨(h.2 1 1 "b.pdf" rfl).2.2 rfl, h.1⟩

/-- C4 fails on the code: on a selected name line holding two colons the
extracted value is the text between the two colons, not the trimmed text
after the first colon that the claim states. -/
theorem claim4_counterexample :
    chStr (specColonValue ("Name: John: Smith".data)) = "John: Smith" ∧
    (extract_fields_rule_based "Name: John: Smith" "f").name = some "John" ∧
    (extract_fields_rule_based "Name: John: Smith" "f").name ≠
      some (chStr (specColonValue ("Name: John: Smith".data))) :=
  ⟨by decide, by decide, by decide⟩

theorem splitAllOn_cons_once (sep : Char) (ln : List Char) :
    splitAllOn sep ln =
      (match splitOnceOn sep ln with
       | none => [ln]
       | some p => p.1 :: splitAllOn sep p.2) := by
  induction ln with
  | nil => rfl
  | cons c t ih =>
    rw [splitAllOn, splitOnceOn]
    by_cases hc : c = sep
    · simp [hc]
    · rw [if_neg hc, if_neg hc]
      cases ho : splitOnceOn sep t with
      | none =>
        have ih2 : splitAllOn sep t = [t] := by rw [ih, ho]
        simp [ih2, ho]
      | some p =>
        have ih2 : splitAllOn sep t = p.1 :: splitAllOn sep p.2 := by rw [ih, ho]
        simp [ih2, ho]

theorem colonValue_eq_between (ln : List Char) :
    colonValue ln = betweenColons ln := by
  rw [colonValue, betweenColons, splitAllOn_cons_once]
  cases h1 : splitOnceOn ':' ln with
  | none => simp [h1]
  | some p =>
    simp only [h1]
    rw [splitAllOn_cons_once]
    cases h2 : splitOnceOn ':' p.2 with
    | none => simp [h2]
    | some q => simp [h2]

/-- C4 amended: for every selected name-bearing line, when the line holds a
colon the value is the trimmed text between the first colon and the next
colon (to the end of the line when the first colon is the only one);
otherwise the whole trimmed line. -/
theorem claim4_amended (text name : String) :
    (∀ ln : List Char, colonValue ln = betweenColons ln) ∧
    ((extract_fields_rule_based text name).name =
      ((linesOf text).find? namePred).map (fun ln => chStr (betweenColons ln))) ∧
    (∀ i, emergencyIdx (linesOf text) = some i →
      (extract_fields_rule_based text name).emergency_contact_name =
        ((((linesOf text).drop i).take 5).find?
            (fun ln => hasSub ("name".data) (pyLower ln))).map
          (fun ln => chStr (betweenColons ln))) := by
  refine ⟨colonValue_eq_between, ?_, ?_⟩
  · rw [extract_name, nameField, nameLoop_eq_find?, Option.map_map]
    congr 1
    funext ln
    simp [Function.comp, colonValue_eq_between]
  · intro i hi
    rw [extract_em_name, emergencyNameField]
    simp only [hi, blockName_eq_find?, Option.map_map]
    congr 1
    funext ln
    simp [Function.comp, colonValue_eq_between]

/-- Witness for C4 amended inside an emergency block. -/
theorem claim4_amended_witness :
    (extract_fields_rule_based "Emergency Contact\nName: Asha: X\n9876543210"
        "f").emergency_contact_name =
      ((((linesOf "Emergency Contact\nName: Asha: X\n9876543210").drop 0).take 5).find?
          (fun ln => hasSub ("name".data) (pyLower ln))).map
        (fun ln => chStr (betweenColons ln)) :=
  (claim4_amended "Emergency Contact\nName: Asha: X\n9876543210" "f").2.2 0
    (by decide)

/-- C5 fails on the code: the pattern has no bare `91` prefix alternative, so
on `"919876543210"` the code matches the leading ten digits and yields
`"9198765432"`, where the pattern of the claim would consume the `91` prefix
and yield `"9876543210"`. -/
theorem claim5_counterexample :
    (extract_fields_rule_based "919876543210" "f").phone = some "9198765432" ∧
    (reSearch specPhoneMatchAt (pyNormOf "919876543210")).map
        (fun m => chStr (last10 (digitsOnly m))) = some "9876543210" ∧
    (extract_fields_rule_based "919876543210" "f").phone ≠
      (reSearch specPhoneMatchAt (pyNormOf "919876543210")).map
        (fun m => chStr (last10 (digitsOnly m))) :=
  ⟨by decide, by decide, by decide⟩

/-- C5 amended: the phone field is the first whole-text match of an optional
`+91` prefix (with an optional single hyphen or whitespace separator)
followed by a ten-digit number starting with 6-9, normalised by keeping the
trailing ten digits; the normalised value is always that ten-digit number as
it occurs contiguously in the text; `"+91-9876543210"` yields
`"9876543210"`. -/
theorem claim5_amended (text name : String) :
    ((extract_fields_rule_based text name).phone =
      (reSearch phoneMatchAt (pyNormOf text)).map
        (fun m => chStr (last10 (digitsOnly m)))) ∧
    (∀ p : String, (extract_fields_rule_based text name).phone = some p →
      p.data.length = 10 ∧ p.data.all isDigitChar = true ∧
      (∃ c cs, p.data = c :: cs ∧ '6' ≤ c ∧ c ≤ '9') ∧
      hasSub p.data (pyNormOf text) = true) ∧
    (extract_fields_rule_based "+91-9876543210" "f").phone = some "9876543210" := by
  refine ⟨by rw [extract_phone, phoneField], ?_, by decide⟩
  intro p hp
  rw [extract_phone, phoneField, Option.map_eq_some'] at hp
  obtain ⟨m, hm, hcp⟩ := hp
  obtain ⟨pr, t, hmt, hlift⟩ := reSearch_cases hm
  obtain ⟨pre, core, r, hmpre, htm, hnorm, hlen, hall, c0, cs, hcore, h6, h9⟩ :=
    phoneMatchAt_shape hmt
  have hpd : p.data = core := by
    rw [← hcp]
    show last10 (digitsOnly m) = core
    exact hnorm
  have hsubt : hasSub core t = true := by
    rw [htm, hmpre, List.append_assoc]
    exact hasSub_append_left _ (hasSub_refl_append _ _)
  rw [hpd]
  exact ⟨hlen, hall, ⟨c0, cs, hcore, h6, h9⟩, hlift core hsubt⟩

/-- Witness for C5 amended at a concrete document text. -/
theorem claim5_amended_witness :
    ("9876543210" : String).data.length = 10 ∧
    ("9876543210" : String).data.all isDigitChar = true ∧
    (∃ c cs, ("9876543210" : String).data = c :: cs ∧ '6' ≤ c ∧ c ≤ '9') ∧
    hasSub ("9876543210" : String).data (pyNormOf "+91-9876543210") = true :=
  (claim5_amended "+91-9876543210" "f").2.1 "9876543210" (by decide)

/-- C6: from the first line containing "address", the address is the text
after the colon on that line (when non-empty) followed by the subsequent
lines up to, and not including, the first line containing a section-header
keyword, all joined with ", "; none when no fragment is collected or no such
line exists. -/
theorem claim6_address (text name : String) :
    (addrIdx (linesOf text) = none →
      (extract_fields_rule_based text name).address = none) ∧
    (∀ i, addrIdx (linesOf text) = some i →
      (extract_fields_rule_based text name).address =
        (let frags :=
          (match splitOnceOn ':' ((linesOf text).getD i []) with
           | some p => if (pyStrip p.2).isEmpty then [] else [pyStrip p.2]
           | none => []) ++
          ((((linesOf text).drop (i + 1)).takeWhile
              (fun ln => !stopLine ln)).map pyStrip);
         if frags.isEmpty then none
         else some (chStr (List.intercalate (", ".data) frags)))) ∧
    (extract_fields_rule_based "Address: 12 MG Road\nBangalore\nBank Details"
        "f").address = some "12 MG Road, Bangalore" := by
  refine ⟨?_, ?_, by decide⟩
  · intro h
    rw [extract_address, addressField, h]
  · intro i hi
    rw [extract_address, addressField]
    simp [hi, addrConsume_eq_takeWhile]

/-- Witness for C6 at the worked example of the spec. -/
theorem claim6_address_witness :
    (extract_fields_rule_based "Address: 12 MG Road\nBangalore\nBank Details"
        "f").address =
      (let frags :=
        (match splitOnceOn ':'
            ((linesOf "Address: 12 MG Road\nBangalore\nBank Details").getD 0 []) with
         | some p => if (pyStrip p.2).isEmpty then [] else [pyStrip p.2]
         | none => []) ++
        ((((linesOf "Address: 12 MG Road\nBangalore\nBank Details").drop 1).takeWhile
            (fun ln => !stopLine ln)).map pyStrip);
       if frags.isEmpty then none
       else some (chStr (List.intercalate (", ".data) frags))) :=
  (claim6_address "Address: 12 MG Road\nBangalore\nBank Details" "f").2.1 0
    (by decide)

/-- C7: the first line containing "emergency" opens a five-line window (that
line plus the next four); the emergency phone is the normalised first phone
match inside the window and the emergency name comes from the first window
line containing "name"; with no such line, both fields are null. -/
theorem claim7_emergency_window (text name : String) :
    (emergencyIdx (linesOf text) = none →
      (extract_fields_rule_based text name).emergency_contact_name = none ∧
      (extract_fields_rule_based text name).emergency_contact_phone = none) ∧
    (∀ i, emergencyIdx (linesOf text) = some i →
      (extract_fields_rule_based text name).emergency_contact_phone =
        ((((linesOf text).drop i).take 5).findSome? (fun ln =>
            (reSearch phoneMatchAt ln).map
              (fun m => last10 (digitsOnly m)))).map chStr ∧
      (extract_fields_rule_based text name).emergency_contact_name =
        ((((linesOf text).drop i).take 5).find? (fun ln =>
            hasSub ("name".data) (pyLower ln))).map
          (fun ln => chStr (colonValue ln))) := by
  constructor
  · intro h
    constructor
    · rw [extract_em_name, emergencyNameField, h]
    · rw [extract_em_phone, emergencyPhoneField, h]
  · intro i hi
    constructor
    · rw [extract_em_phone, emergencyPhoneField]
      simp only [hi, blockPhone_eq_findSome?]
    · rw [extract_em_name, emergencyNameField]
      simp only [hi, blockName_eq_find?, Option.map_map]
      rfl

/-- Witness for C7 at a concrete emergency block. -/
theorem claim7_emergency_window_witness :
    (extract_fields_rule_based "Emergency Contact\nName: Asha\n9876543210"
        "f").emergency_contact_phone =
      ((((linesOf "Emergency Contact\nName: Asha\n9876543210").drop 0).take 5).findSome?
          (fun ln => (reSearch phoneMatchAt ln).map
            (fun m => last10 (digitsOnly m)))).map chStr ∧
    (extract_fields_rule_based "Emergency Contact\nName: Asha\n9876543210"
        "f").emergency_contact_name =
      ((((linesOf "Emergency Contact\nName: Asha\n9876543210").drop 0).take 5).find?
          (fun ln => hasSub ("name".data) (pyLower ln))).map
        (fun ln => chStr (colonValue ln)) :=
  (claim7_emergency_window "Emergency Contact\nName: Asha\n9876543210" "f").2 0
    (by decide)

/-- C8 fails on the code: the separator class of `AADHAAR_REGEX` is the
whitespace class `\s`, not the single space of the claim, so a tab-grouped
number is matched where the spec pattern would find no match at all. -/
theorem claim8_counterexample :
    (extract_fields_rule_based "1234\t5678\t9012" "f").aadhaar =
      some "1234\t5678\t9012" ∧
    (reSearch specAadMatchAt (pyNormOf "1234\t5678\t9012")).map chStr = none ∧
    (extract_fields_rule_based "1234\t5678\t9012" "f").aadhaar ≠
      (reSearch specAadMatchAt (pyNormOf "1234\t5678\t9012")).map chStr :=
  ⟨by decide, by decide, by decide⟩

/-- C8 amended: the aadhaar field is the first whole-text match of 12 digits
optionally grouped as 4-4-4 with a single whitespace character between
groups, kept verbatim — it appears contiguously, spacing included, in the
normalised text. -/
theorem claim8_amended (text name : String) :
    ((extract_fields_rule_based text name).aadhaar =
      (reSearch aadMatchAt (pyNormOf text)).map chStr) ∧
    (∀ a : String, (extract_fields_rule_based text name).aadhaar = some a →
      hasSub a.data (pyNormOf text) = true ∧
      ∃ d1 s1 d2 s2 d3,
        a.data = d1 ++ s1 ++ d2 ++ s2 ++ d3 ∧
        d1.length = 4 ∧ d1.all isDigitChar = true ∧
        d2.length = 4 ∧ d2.all isDigitChar = true ∧
        d3.length = 4 ∧ d3.all isDigitChar = true ∧
        (s1 = [] ∨ ∃ c, s1 = [c] ∧ pyIsSpace c = true) ∧
        (s2 = [] ∨ ∃ c, s2 = [c] ∧ pyIsSpace c = true)) := by
  refine ⟨by rw [extract_aadhaar, aadhaarField], ?_⟩
  intro a ha
  rw [extract_aadhaar, aadhaarField, Option.map_eq_some'] at ha
  obtain ⟨m, hm, hca⟩ := ha
  have had : a.data = m := by rw [← hca]; rfl
  obtain ⟨pr, t, hmt, hlift⟩ := reSearch_cases hm
  obtain ⟨d1, s1, d2, s2, d3, rest, hmshape, hts, h1l, h1a, h2l, h2a, h3l,
    h3a, hs1, hs2⟩ := aadFrom_shape (aadMatchAt_from hmt)
  have hsubt : hasSub m t = true := by
    rw [hts]
    exact hasSub_refl_append m rest
  rw [had]
  exact ⟨hlift m hsubt, d1, s1, d2, s2, d3, hmshape, h1l, h1a, h2l, h2a,
    h3l, h3a, hs1, hs2⟩

/-- Witness for C8 amended at a space-grouped Aadhaar number. -/
theorem claim8_amended_witness :
    hasSub ("1234 5678 9012" : String).data (pyNormOf "Aadhaar: 1234 5678 9012") = true ∧
    (∃ d1 s1 d2 s2 d3,
      ("1234 5678 9012" : String).data = d1 ++ s1 ++ d2 ++ s2 ++ d3 ∧
      d1.length = 4 ∧ d1.all isDigitChar = true ∧
      d2.length = 4 ∧ d2.all isDigitChar = true ∧
      d3.length = 4 ∧ d3.all isDigitChar = true ∧
      (s1 = [] ∨ ∃ c, s1 = [c] ∧ pyIsSpace c = true) ∧
      (s2 = [] ∨ ∃ c, s2 = [c] ∧ pyIsSpace c = true)) :=
  (claim8_amended "Aadhaar: 1234 5678 9012" "f").2 "1234 5678 9012" (by decide)

/-- C9: the extractor is total — it always yields a record; the source file
name is always the given one, and a field whose pattern or label is absent
from the text is null while the other fields are unaffected. -/
theorem claim9_absence_null (text name : String) :
    (extract_fields_rule_based text name).source_file_name = name ∧
    (reSearch emailMatchAt (pyNormOf text) = none →
      (extract_fields_rule_based text name).email = none) ∧
    (reSearch phoneMatchAt (pyNormOf text) = none →
      (extract_fields_rule_based text name).phone = none) ∧
    (reSearch panMatchAt (pyNormOf text) = none →
      (extract_fields_rule_based text name).pan = none) ∧
    (reSearch aadMatchAt (pyNormOf text) = none →
      (extract_fields_rule_based text name).aadhaar = none) ∧
    (reSearch ifscMatchAt (pyNormOf text) = none →
      (extract_fields_rule_based text name).ifsc = none) ∧
    (accFindAll (pyNormOf text) = [] →
      (extract_fields_rule_based text name).bank_account = none) ∧
    ((∀ ln ∈ linesOf text, namePred ln = false) →
      (extract_fields_rule_based text name).name = none) ∧
    (emergencyIdx (linesOf text) = none →
      (extract_fields_rule_based text name).emergency_contact_name = none ∧
      (extract_fields_rule_based text name).emergency_contact_phone = none) ∧
    (addrIdx (linesOf text) = none →
      (extract_fields_rule_based text name).address = none) := by
  refine ⟨rfl, ?_, ?_, ?_, ?_, ?_, ?_, ?_, ?_, ?_⟩
  · intro h
    rw [extract_email, emailField, h]
    rfl
  · intro h
    rw [extract_phone, phoneField, h]
    rfl
  · intro h
    rw [extract_pan, panField, h]
    rfl
  · intro h
    rw [extract_aadhaar, aadhaarField, h]
    rfl
  · intro h
    rw [extract_ifsc, ifscField, h]
    rfl
  · intro h
    rw [extract_bank, bankField, h]
    rfl
  · intro h
    have hf : (linesOf text).find? namePred = none :=
      List.find?_eq_none.mpr (fun x hx => by rw [h x hx]; simp)
    rw [extract_name, nameField, nameLoop_eq_find?, hf]
    rfl
  · intro h
    constructor
    · rw [extract_em_name, emergencyNameField, h]
    · rw [extract_em_phone, emergencyPhoneField, h]
  · intro h
    rw [extract_address, addressField, h]

/-- Witness for C9 on the empty document text. -/
theorem claim9_absence_null_witness :
    (extract_fields_rule_based "" "x.pdf").source_file_name = "x.pdf" ∧
    (extract_fields_rule_based "" "x.pdf").email = none ∧
    (extract_fields_rule_based "" "x.pdf").phone = none ∧
    (extract_fields_rule_based "" "x.pdf").pan = none ∧
    (extract_fields_rule_based "" "x.pdf").aadhaar = none ∧
    (extract_fields_rule_based "" "x.pdf").ifsc = none ∧
    (extract_fields_rule_based "" "x.pdf").bank_account = none ∧
    (extract_fields_rule_based "" "x.pdf").name = none ∧
    (extract_fields_rule_based "" "x.pdf").emergency_contact_name = none ∧
    (extract_fields_rule_based "" "x.pdf").emergency_contact_phone = none ∧
    (extract_fields_rule_based "" "x.pdf").address = none := by
  obtain ⟨h1, h2, h3, h4, h5, h6, h7, h8, h9, h10⟩ :=
    claim9_absence_null "" "x.pdf"
  exact ⟨h1, h2 (by decide), h3 (by decide), h4 (by decide), h5 (by decide),
    h6 (by decide), h7 (by decide), h8 (by decide), (h9 (by decide)).1,
    (h9 (by decide)).2, h10 (by decide)⟩

/-- C10: every generic account candidate is a contiguous standalone run of 9
to 18 digits; an Aadhaar value matched with internal spacing yields no
account candidate at all when scanned on its own; and whenever the 12-digit
skip rule can fire — a candidate equal to the Aadhaar digit string — that
digit string occurs ungrouped (contiguously) in the text. -/
theorem claim10_spaced_aadhaar (text name : String) :
    (∀ d ∈ accFindAll (pyNormOf text),
      9 ≤ d.length ∧ d.length ≤ 18 ∧ d.all isDigitChar = true ∧
        hasSub d (pyNormOf text) = true) ∧
    (∀ a : String, (extract_fields_rule_based text name).aadhaar = some a →
      (∃ c ∈ a.data, pyIsSpace c = true) → accFindAll a.data = []) ∧
    (∀ d ∈ accFindAll (pyNormOf text),
      d = aadhaarDigitsOf (pyNormOf text) → d.length = 12 →
        hasSub (aadhaarDigitsOf (pyNormOf text)) (pyNormOf text) = true) := by
  refine ⟨fun d hd => accFindAll_props hd, ?_, ?_⟩
  · intro a ha hsp
    rw [extract_aadhaar, aadhaarField, Option.map_eq_some'] at ha
    obtain ⟨m, hm, hca⟩ := ha
    have had : a.data = m := by rw [← hca]; rfl
    obtain ⟨pr, t, hmt, _⟩ := reSearch_cases hm
    obtain ⟨d1, s1, d2, s2, d3, rest, hmshape, _, h1l, h1a, h2l, h2a, h3l,
      h3a, hs1, hs2⟩ := aadFrom_shape (aadMatchAt_from hmt)
    obtain ⟨c, hcmem, hcsp⟩ := hsp
    rw [had, hmshape]
    rw [had, hmshape] at hcmem
    apply accFindAll_nil_of_noNine
    rcases hs1 with rfl | ⟨c1, rfl, hc1⟩ <;> rcases hs2 with rfl | ⟨c2, rfl, hc2⟩
    · exfalso
      simp only [List.append_nil, List.mem_append] at hcmem
      have hdig : isDigitChar c = true := by
        rcases hcmem with (hc | hc) | hc
        · exact List.all_eq_true.mp h1a c hc
        · exact List.all_eq_true.mp h2a c hc
        · exact List.all_eq_true.mp h3a c hc
      rw [space_not_digit hcsp] at hdig
      cases hdig
    · rw [List.append_nil, List.append_assoc, List.singleton_append]
      exact hasNineDigitRun_append (space_not_digit hc2)
        (hasNineDigitRun_of_short (by simp [h3l]))
        (hasNineDigitRun_of_short (by simp [h1l, h2l]))
    · rw [List.append_nil, List.append_assoc, List.append_assoc,
          List.singleton_append]
      exact hasNineDigitRun_append (space_not_digit hc1)
        (hasNineDigitRun_of_short (by simp [h2l, h3l]))
        (hasNineDigitRun_of_short (by simp [h1l]))
    · rw [List.append_assoc, List.append_assoc, List.append_assoc,
          List.singleton_append, List.singleton_append]
      exact hasNineDigitRun_append (space_not_digit hc1)
        (hasNineDigitRun_append (space_not_digit hc2)
          (hasNineDigitRun_of_short (by simp [h3l]))
          (hasNineDigitRun_of_short (by simp [h2l])))
        (hasNineDigitRun_of_short (by simp [h1l]))
  · intro d hd hdeq _
    rw [← hdeq]
    exact (accFindAll_props hd).2.2.2

/-- Witness for C10: a space-grouped Aadhaar value yields no account
candidate, and a bare nine-digit run is one, contiguously. -/
theorem claim10_spaced_aadhaar_witness :
    accFindAll ("1234 5678 9012" : String).data = [] ∧
    (9 ≤ ("123456789" : String).data.length ∧
      ("123456789" : String).data.length ≤ 18 ∧
      ("123456789" : String).data.all isDigitChar = true ∧
      hasSub ("123456789" : String).data (pyNormOf "Ref 123456789 x") = true) :=
  ⟨(claim10_spaced_aadhaar "Aadhaar: 1234 5678 9012" "f").2.1 "1234 5678 9012"
      (by decide) (by decide),
    (claim10_spaced_aadhaar "Ref 123456789 x" "f").1
      ("123456789" : String).data (by decide)⟩

end PdfExtract
